import Mathlib

/-
Verification of the strict search engine of the bindle repository
(src/search.rs): the index store, the query engine with offset/limit
pagination, and the version matcher.

Modelling choices, each tied to the source:
- The store field `index : BTreeMap<String, Invoice>` is embedded as the
  sorted list of its entries (ascending, strictly increasing keys), which
  is exactly the iteration order `self.index.iter()` produces.
  `BTreeMap::insert` becomes ordered insertion that replaces an existing
  key.
- Only the fields of `Invoice` the engine reads are kept:
  `invoice.bindle.name`, `invoice.bindle.version` (flattened to `name`,
  `version`) and the `yanked` flag.
- `u64` / `u8` values are embedded as `Nat`; the one place where machine
  arithmetic can wrap, `matches.offset + matches.limit as u64 - 1`, is
  embedded with an explicit modulus `U64 = 2 ^ 64` (release-build
  wrapping semantics; a debug build would panic at the same inputs).
  Theorems that need the `usize` or `u64` type bounds state them as
  hypotheses.
- The semver crate is an external dependency, not part of this
  repository, so `VersionReq::parse`, `Version::parse` and
  `VersionReq::matches` are abstracted as parameters (`SemverOracle`);
  every result below holds for an arbitrary oracle.
- `query` always ends in `Ok(matches)`; this is embedded as a function
  into `Except String Matches` whose result is always `Except.ok`.
-/

namespace BindleSearch

/-- 2 ^ 64, the modulus of the `u64` arithmetic in `query`. -/
def U64 : Nat := 18446744073709551616

/-- The fields of `crate::Invoice` read by the search engine:
`invoice.bindle.name`, `invoice.bindle.version`, `invoice.yanked`. -/
structure Invoice where
  name : String
  version : String
  yanked : Option Bool := none
deriving DecidableEq

/-- `SearchOptions` from src/search.rs (offset : u64, limit : u8,
strict : bool, yanked : bool). -/
structure SearchOptions where
  offset : Nat
  limit : Nat
  strict : Bool
  yanked : Bool
deriving DecidableEq

/-- `impl Default for SearchOptions`. -/
def SearchOptions.default : SearchOptions :=
  { offset := 0, limit := 50, strict := false, yanked := false }

/-- `Matches` from src/search.rs. -/
structure Matches where
  strict : Bool
  offset : Nat
  limit : Nat
  total : Nat
  more : Bool
  invoices : List Invoice
  yanked : Bool
deriving DecidableEq

/-- `Matches::new`: copy the options, default the rest. -/
def Matches.new (opts : SearchOptions) : Matches :=
  { strict := opts.strict
    offset := opts.offset
    limit := opts.limit
    yanked := opts.yanked
    invoices := []
    more := false
    total := 0 }

/-- The abstract interface of the external semver crate:
`VersionReq::parse`, `Version::parse` and `VersionReq::matches`. -/
structure SemverOracle (Rq Vr : Type) where
  parseReq : String → Option Rq
  parseVersion : String → Option Vr
  reqMatches : Rq → Vr → Bool

variable {Rq Vr : Type}

/-- `version_compare` from src/search.rs: empty requirement is accepted
before anything is parsed; a requirement that fails to parse matches
nothing; a version that fails to parse matches nothing; otherwise defer
to the semver range check. -/
def version_compare (S : SemverOracle Rq Vr) (version requirement : String) : Bool :=
  if requirement = "" then
    true
  else
    match S.parseReq requirement with
    | some req =>
      match S.parseVersion version with
      | some ver => S.reqMatches req ver
      | none => false
    | none => false

/-- The four-rule reference definition of the version matcher, written
from the specification words (rules applied in order): 1. empty
requirement is always true; 2. unparsable requirement is always false;
3. unparsable version is false; 4. both parse and the result is whether
the version satisfies the range. -/
def version_compare_spec (S : SemverOracle Rq Vr) (version requirement : String) : Bool :=
  if requirement = "" then
    true
  else
    match S.parseReq requirement with
    | none => false
    | some req =>
      match S.parseVersion version with
      | none => false
      | some ver => S.reqMatches req ver

/-- The state of `StrictEngine`: the entry list of the
`BTreeMap<String, Invoice>` in ascending key order. -/
abbrev Store := List (String × Invoice)

/-- Keys strictly ascend: the invariant of a binary search tree entry
list, and what makes iteration order deterministic. -/
abbrev SortedKeys (s : Store) : Prop :=
  List.Pairwise (fun p q => p.1 < q.1) s

/-- Every entry of a store reached through `StrictEngine::index` is
keyed by the name of the invoice it holds. -/
abbrev KeyInv (s : Store) : Prop :=
  ∀ p ∈ s, p.2.name = p.1

/-- `BTreeMap::insert`: replace the entry when the key is present,
otherwise insert at the ordered position. -/
def insertSorted (k : String) (v : Invoice) : Store → Store
  | [] => [(k, v)]
  | (k₁, v₁) :: rest =>
    if k < k₁ then (k, v) :: (k₁, v₁) :: rest
    else if k = k₁ then (k, v) :: rest
    else (k₁, v₁) :: insertSorted k v rest

/-- `StrictEngine::index`:
`self.index.insert(invoice.bindle.name.clone(), invoice.clone())`,
always returning `Ok(())`. -/
def StrictEngine.index (s : Store) (invoice : Invoice) : Store :=
  insertSorted invoice.name invoice s

/-- The candidate collection of `StrictEngine::query`:
`self.index.iter().filter(|(key, value)| *key == &term &&
version_compare(value.bindle.version.as_str(), &filter)).map(|(_, v)|
v.clone()).collect()`. -/
def foundList (S : SemverOracle Rq Vr) (idx : Store) (term filter : String) : List Invoice :=
  (idx.filter (fun p => p.1 == term && version_compare S p.2.version filter)).map Prod.snd

/-- `let mut last_index = matches.offset + matches.limit as u64 - 1;`
with the wrapping `u64` semantics made explicit: for `offset`, `limit`
in `u64` range this is `(offset + limit - 1) mod 2 ^ 64`. -/
def last_index_raw (o : SearchOptions) : Nat :=
  (o.offset + o.limit + (U64 - 1)) % U64

/-- `if last_index >= matches.total { last_index = matches.total - 1; }` -/
def last_index (o : SearchOptions) (total : Nat) : Nat :=
  if total ≤ last_index_raw o then total - 1 else last_index_raw o

/-- The `Matches` value built by `StrictEngine::query`: start from
`Matches::new(&options)`, force `strict = true`, `yanked = false`, set
`total = found.len()`; return early (empty, `more = false`) when
`offset >= total`; otherwise clamp the inclusive end index and drain
`found[offset ..= last_index]`. -/
def queryMatches (S : SemverOracle Rq Vr) (idx : Store) (term filter : String)
    (o : SearchOptions) : Matches :=
  if (foundList S idx term filter).length ≤ o.offset then
    { Matches.new o with
        strict := true
        yanked := false
        total := (foundList S idx term filter).length
        more := false }
  else
    { Matches.new o with
        strict := true
        yanked := false
        total := (foundList S idx term filter).length
        more := decide ((foundList S idx term filter).length >
          last_index o (foundList S idx term filter).length + 1)
        invoices := ((foundList S idx term filter).drop o.offset).take
          (last_index o (foundList S idx term filter).length + 1 - o.offset) }

/-- `StrictEngine::query`: both exits of the source function return
`Ok(matches)`. -/
def query (S : SemverOracle Rq Vr) (idx : Store) (term filter : String)
    (o : SearchOptions) : Except String Matches :=
  Except.ok (queryMatches S idx term filter o)

/-- A small concrete semver oracle used to exercise the theorems on
concrete inputs: the string "bad" fails to parse as a requirement, the
empty string fails to parse as a version, and a requirement matches
exactly the equal version string. -/
def toyOracle : SemverOracle String String where
  parseReq := fun s => if s = "bad" then none else some s
  parseVersion := fun s => if s = "" then none else some s
  reqMatches := fun r v => r == v

/-- A one-record store for concrete instances. -/
def demoStore : Store := [("a", { name := "a", version := "1.0.0" })]

/-- A second one-record store for concrete instances. -/
def demoStoreB : Store := [("b", { name := "b", version := "1.0.0" })]

/-- A third one-record store for concrete instances. -/
def demoStoreC : Store := [("c", { name := "c", version := "1.0.0" })]

/-- The invoice held by `demoStore`. -/
def invA : Invoice := { name := "a", version := "1.0.0" }

/-- A second invoice with the same name as `invA` and another version. -/
def invA2 : Invoice := { name := "a", version := "2.0.0" }

/-- Options with `limit = 0`, the degenerate corner of the pagination
arithmetic. -/
def zeroLimitOpts : SearchOptions :=
  { offset := 0, limit := 0, strict := false, yanked := false }

/-- Options that request yanked records. -/
def yankedOpts : SearchOptions :=
  { offset := 0, limit := 50, strict := false, yanked := true }

/-- Every element of an ordered insert is the inserted pair or an
element of the original list. -/
theorem mem_insertSorted {k : String} {v : Invoice} {l : Store} {p : String × Invoice}
    (h : p ∈ insertSorted k v l) : p = (k, v) ∨ p ∈ l := by
  induction l with
  | nil =>
    simp only [insertSorted, List.mem_singleton] at h
    exact Or.inl h
  | cons q rest ih =>
    obtain ⟨k₁, v₁⟩ := q
    simp only [insertSorted] at h
    split at h
    · simp only [List.mem_cons] at h ⊢
      tauto
    · split at h
      · simp only [List.mem_cons] at h ⊢
        tauto
      · simp only [List.mem_cons] at h ⊢
        rcases h with h | h
        · tauto
        · rcases ih h with h | h <;> tauto

/-- Ordered insert preserves the strictly ascending key invariant of the
store: this is what `BTreeMap::insert` guarantees. -/
theorem sortedKeys_insertSorted {l : Store} (k : String) (v : Invoice)
    (hs : SortedKeys l) : SortedKeys (insertSorted k v l) := by
  induction l with
  | nil => simp [insertSorted]
  | cons q rest ih =>
    obtain ⟨k₁, v₁⟩ := q
    rcases List.pairwise_cons.mp hs with ⟨hhead, htail⟩
    simp only [insertSorted]
    split
    · next hlt =>
      refine List.pairwise_cons.mpr ⟨?_, hs⟩
      intro p hp
      rcases List.mem_cons.mp hp with rfl | hp
      · exact hlt
      · exact lt_trans hlt (hhead p hp)
    · next hnlt =>
      split
      · next heq =>
        refine List.pairwise_cons.mpr ⟨?_, htail⟩
        intro p hp
        exact heq ▸ hhead p hp
      · next hne =>
        have hk : k₁ < k := lt_of_le_of_ne (le_of_not_lt hnlt) (Ne.symm hne)
        refine List.pairwise_cons.mpr ⟨?_, ih htail⟩
        intro p hp
        rcases mem_insertSorted hp with rfl | hp
        · exact hk
        · exact hhead p hp

/-- Inserting twice under the same key collapses to the last insert:
`BTreeMap::insert` overwrites. -/
theorem insertSorted_insertSorted_same (k : String) (v₁ v₂ : Invoice) (l : Store) :
    insertSorted k v₂ (insertSorted k v₁ l) = insertSorted k v₂ l := by
  induction l with
  | nil => simp [insertSorted]
  | cons q rest ih =>
    obtain ⟨k₁, w⟩ := q
    by_cases h1 : k < k₁
    · simp [insertSorted, h1, lt_irrefl]
    · by_cases h2 : k = k₁
      · simp [insertSorted, h1, h2, lt_irrefl]
      · simp [insertSorted, h1, h2, ih]

/-- A filter whose test fails on every element yields the empty list. -/
theorem filter_eq_nil_of_none {α : Type} (q : α → Bool) (l : List α)
    (h : ∀ a ∈ l, q a = false) : l.filter q = [] := by
  induction l with
  | nil => rfl
  | cons a l ih =>
    rw [List.filter_cons, if_neg (by simp [h a (List.mem_cons_self a l)]),
      ih (fun b hb => h b (List.mem_cons_of_mem a hb))]

/-- In a sorted store, filtering on the inserted key (conjoined with any
test on the value) isolates the inserted entry. -/
theorem filter_and_insertSorted {l : Store} (hs : SortedKeys l) (k : String) (v : Invoice)
    (g : Invoice → Bool) :
    (insertSorted k v l).filter (fun p => p.1 == k && g p.2) =
      if g v then [(k, v)] else [] := by
  induction l with
  | nil =>
    simp only [insertSorted, List.filter]
    split <;> simp_all
  | cons q rest ih =>
    obtain ⟨k₁, w⟩ := q
    rcases List.pairwise_cons.mp hs with ⟨hhead, htail⟩
    simp only [insertSorted]
    by_cases h1 : k < k₁
    · rw [if_pos h1]
      have hrest : ((k₁, w) :: rest).filter (fun p => p.1 == k && g p.2) = [] := by
        apply filter_eq_nil_of_none
        intro p hp
        have hkp : k < p.1 := by
          rcases List.mem_cons.mp hp with rfl | hp
          · exact h1
          · exact lt_trans h1 (hhead p hp)
        simp [ne_of_gt hkp]
      rw [List.filter_cons, hrest]
      split <;> simp_all
    · by_cases h2 : k = k₁
      · rw [if_neg h1, if_pos h2]
        have hrest : rest.filter (fun p => p.1 == k && g p.2) = [] := by
          apply filter_eq_nil_of_none
          intro p hp
          have hkp : k < p.1 := h2 ▸ hhead p hp
          simp [ne_of_gt hkp]
        rw [List.filter_cons, hrest]
        split <;> simp_all
      · rw [if_neg h1, if_neg h2]
        rw [List.filter_cons, if_neg (by simp [Ne.symm h2]), ih htail]

/-- Querying a sorted store for the key just inserted finds exactly the
inserted invoice, gated by its version check. -/
theorem foundList_insertSorted (S : SemverOracle Rq Vr) {l : Store}
    (hs : SortedKeys l) (k : String) (v : Invoice) (f : String) :
    foundList S (insertSorted k v l) k f =
      if version_compare S v.version f then [v] else [] := by
  unfold foundList
  rw [filter_and_insertSorted hs k v (fun i => version_compare S i.version f)]
  split <;> rfl

/-- In a sorted store, the entries under the key just inserted are
exactly the inserted entry. -/
theorem filter_key_insertSorted {l : Store} (hs : SortedKeys l) (k : String) (v : Invoice) :
    (insertSorted k v l).filter (fun p => p.1 == k) = [(k, v)] := by
  have hfun : (fun p : String × Invoice => p.1 == k) =
      (fun p : String × Invoice => p.1 == k && (fun _ : Invoice => true) p.2) := by
    funext p
    simp
  rw [hfun, filter_and_insertSorted hs k v (fun _ => true)]
  rfl

/-- C3: version_compare equals the four-rule reference definition
evaluated in order (empty requirement accepted first, unparsable
requirement rejected, unparsable version rejected, otherwise the semver
range verdict), for every semver oracle and every pair of strings. -/
theorem version_compare_matches_reference (S : SemverOracle Rq Vr)
    (version requirement : String) :
    version_compare S version requirement = version_compare_spec S version requirement := by
  unfold version_compare version_compare_spec
  split
  · rfl
  · cases S.parseReq requirement with
    | none => rfl
    | some req => cases S.parseVersion version with
      | none => rfl
      | some ver => rfl

/-- C1 counterexample: with `limit = 0`, `offset = 0` and one matching
record, the claim fails as stated: the `u64` computation of
`offset + limit - 1` wraps, the wrapped index is clamped to
`total - 1`, and all `total = 1` matches are returned — one more than
the claimed `limit = 0`, so the returned list exceeds `limit`. -/
theorem query_zero_limit_breaks_pagination :
    (queryMatches toyOracle demoStore "a" "" zeroLimitOpts).invoices.length = 1
  ∧ ¬ ((queryMatches toyOracle demoStore "a" "" zeroLimitOpts).invoices.length ≤
      zeroLimitOpts.limit) := by
  decide

/-- C1 (amended): for options with `1 ≤ limit` and `offset + limit ≤ 2 ^ 64`
(no `u64` wraparound; automatic for any store a real process can hold),
and `offset < total`, query returns the sub-sequence of the match list
over indices `[offset, min (offset + limit - 1) (total - 1)]` in
preserved relative order; it returns `total - offset` records when
`offset + limit ≥ total` and exactly `limit` records otherwise, and
never more than `limit` records. -/
theorem query_pagination_window (S : SemverOracle Rq Vr) (idx : Store) (t f : String)
    (o : SearchOptions) (h1 : 1 ≤ o.limit) (h255 : o.limit ≤ 255)
    (hoff : o.offset < (foundList S idx t f).length)
    (h2 : o.offset + o.limit ≤ U64) :
    (queryMatches S idx t f o).invoices =
      ((foundList S idx t f).drop o.offset).take
        (min (o.offset + o.limit - 1) ((foundList S idx t f).length - 1) + 1 - o.offset)
  ∧ (queryMatches S idx t f o).invoices.length =
      (if (foundList S idx t f).length ≤ o.offset + o.limit
       then (foundList S idx t f).length - o.offset
       else o.limit)
  ∧ (queryMatches S idx t f o).invoices.length ≤ o.limit := by
  have hraw : last_index_raw o = o.offset + o.limit - 1 := by
    unfold last_index_raw U64
    unfold U64 at h2
    omega
  have hli : last_index o (foundList S idx t f).length =
      min (o.offset + o.limit - 1) ((foundList S idx t f).length - 1) := by
    unfold last_index
    rw [hraw]
    split <;> omega
  have hnle : ¬ ((foundList S idx t f).length ≤ o.offset) := by omega
  unfold queryMatches
  rw [if_neg hnle]
  simp only [Matches.new]
  rw [hli]
  refine ⟨rfl, ?_, ?_⟩
  · rw [List.length_take, List.length_drop]
    split <;> omega
  · rw [List.length_take, List.length_drop]
    omega

/-- C1 witness: the amended pagination theorem applied to the default
options on a one-record store. -/
theorem query_pagination_window_instance :
    (1 ≤ SearchOptions.default.limit
      ∧ SearchOptions.default.limit ≤ 255
      ∧ SearchOptions.default.offset < (foundList toyOracle demoStore "a" "").length
      ∧ SearchOptions.default.offset + SearchOptions.default.limit ≤ U64)
  ∧ ((queryMatches toyOracle demoStore "a" "" SearchOptions.default).invoices =
      ((foundList toyOracle demoStore "a" "").drop SearchOptions.default.offset).take
        (min (SearchOptions.default.offset + SearchOptions.default.limit - 1)
          ((foundList toyOracle demoStore "a" "").length - 1) + 1 -
            SearchOptions.default.offset)
    ∧ (queryMatches toyOracle demoStore "a" "" SearchOptions.default).invoices.length =
        (if (foundList toyOracle demoStore "a" "").length ≤
            SearchOptions.default.offset + SearchOptions.default.limit
         then (foundList toyOracle demoStore "a" "").length - SearchOptions.default.offset
         else SearchOptions.default.limit)
    ∧ (queryMatches toyOracle demoStore "a" "" SearchOptions.default).invoices.length ≤
        SearchOptions.default.limit) :=
  ⟨⟨by decide, by decide, by decide, by decide⟩,
    query_pagination_window toyOracle demoStore "a" "" SearchOptions.default
      (by decide) (by decide) (by decide) (by decide)⟩

/-- C2 counterexample: with `limit = 0`, `offset = 0` and one matching
record, `more` is `false` although `total > offset + limit`, because
the wrapped end index is clamped to `total - 1`. -/
theorem query_zero_limit_breaks_more :
    (queryMatches toyOracle demoStoreB "b" "" zeroLimitOpts).more = false
  ∧ (queryMatches toyOracle demoStoreB "b" "" zeroLimitOpts).total >
      zeroLimitOpts.offset + zeroLimitOpts.limit := by
  decide

/-- C2 (amended): for options with `1 ≤ limit` and
`offset + limit ≤ 2 ^ 64` (no `u64` wraparound), the `more` field of the
query result is true exactly when `total > offset + limit`, covering
both the early `offset ≥ total` exit and the main pagination branch. -/
theorem query_more_iff (S : SemverOracle Rq Vr) (idx : Store) (t f : String)
    (o : SearchOptions) (h1 : 1 ≤ o.limit) (h2 : o.offset + o.limit ≤ U64) :
    (queryMatches S idx t f o).more =
      decide ((foundList S idx t f).length > o.offset + o.limit) := by
  have hraw : last_index_raw o = o.offset + o.limit - 1 := by
    unfold last_index_raw U64
    unfold U64 at h2
    omega
  unfold queryMatches
  split
  · next hle =>
    have hng : ¬ ((foundList S idx t f).length > o.offset + o.limit) := by omega
    simp [Matches.new, hng]
  · next hgt =>
    unfold last_index
    rw [hraw]
    simp only [Matches.new]
    split
    · next hc =>
      have hng : ¬ ((foundList S idx t f).length > o.offset + o.limit) := by omega
      simp [hng]
      omega
    · next hc =>
      simp only [decide_eq_decide]
      omega

/-- C2 witness: the amended `more` characterization applied to the
default options on a one-record store. -/
theorem query_more_iff_instance :
    (1 ≤ SearchOptions.default.limit
      ∧ SearchOptions.default.offset + SearchOptions.default.limit ≤ U64)
  ∧ (queryMatches toyOracle demoStore "a" "" SearchOptions.default).more =
      decide ((foundList toyOracle demoStore "a" "").length >
        SearchOptions.default.offset + SearchOptions.default.limit) :=
  ⟨⟨by decide, by decide⟩,
    query_more_iff toyOracle demoStore "a" "" SearchOptions.default (by decide) (by decide)⟩

/-- C4: in a store whose entries are keyed by the name of the invoice
they hold (the invariant `StrictEngine::index` establishes), an invoice
is in the match list exactly when its name equals the term and the
version matcher accepts its version against the filter; the match list
preserves the store iteration order (it is a sublist of the value
sequence); and `total` counts the whole match list before pagination. -/
theorem query_match_characterization (S : SemverOracle Rq Vr) (idx : Store)
    (t f : String) (hk : KeyInv idx) :
    (∀ inv : Invoice, inv ∈ foundList S idx t f ↔
      (inv ∈ idx.map Prod.snd ∧ inv.name = t ∧ version_compare S inv.version f = true))
  ∧ List.Sublist (foundList S idx t f) (idx.map Prod.snd)
  ∧ ∀ o : SearchOptions,
      (queryMatches S idx t f o).total = (foundList S idx t f).length := by
  refine ⟨?_, ?_, ?_⟩
  · intro inv
    simp only [foundList, List.mem_map, List.mem_filter, Bool.and_eq_true, beq_iff_eq]
    constructor
    · rintro ⟨p, ⟨hp, ht, hv⟩, hsnd⟩
      refine ⟨⟨p, hp, hsnd⟩, ?_, ?_⟩
      · rw [← hsnd, hk p hp, ht]
      · rw [← hsnd]
        exact hv
    · rintro ⟨⟨p, hp, hsnd⟩, hname, hv⟩
      exact ⟨p, ⟨hp, by rw [← hk p hp, hsnd, hname], by rw [hsnd]; exact hv⟩, hsnd⟩
  · exact List.Sublist.map Prod.snd (List.filter_sublist _)
  · intro o
    unfold queryMatches
    split <;> simp [Matches.new]

/-- C4 witness: the match characterization applied to the one-record
demo store. -/
theorem query_match_characterization_instance :
    KeyInv demoStore
  ∧ ((∀ inv : Invoice, inv ∈ foundList toyOracle demoStore "a" "" ↔
      (inv ∈ demoStore.map Prod.snd ∧ inv.name = "a" ∧
        version_compare toyOracle inv.version "" = true))
    ∧ List.Sublist (foundList toyOracle demoStore "a" "") (demoStore.map Prod.snd)
    ∧ ∀ o : SearchOptions,
        (queryMatches toyOracle demoStore "a" "" o).total =
          (foundList toyOracle demoStore "a" "").length) :=
  ⟨by decide, query_match_characterization toyOracle demoStore "a" "" (by decide)⟩

/-- C5: whenever `offset ≥ total`, query succeeds (it returns `Ok`) with
an empty invoice list and `more = false`, and the remaining fields carry
their usual values: `offset` and `limit` echoed from the options,
`total` the match count, `strict = true` and `yanked = false` as the
strict engine always sets them. -/
theorem query_offset_past_end (S : SemverOracle Rq Vr) (idx : Store) (t f : String)
    (o : SearchOptions) (h : (foundList S idx t f).length ≤ o.offset) :
    query S idx t f o = Except.ok (queryMatches S idx t f o)
  ∧ (queryMatches S idx t f o).invoices = []
  ∧ (queryMatches S idx t f o).more = false
  ∧ (queryMatches S idx t f o).offset = o.offset
  ∧ (queryMatches S idx t f o).limit = o.limit
  ∧ (queryMatches S idx t f o).total = (foundList S idx t f).length
  ∧ (queryMatches S idx t f o).strict = true
  ∧ (queryMatches S idx t f o).yanked = false := by
  refine ⟨rfl, ?_⟩
  unfold queryMatches
  rw [if_pos h]
  simp [Matches.new]

/-- C5 witness: the past-the-end theorem applied to a term with no
matches, where `offset = 0 ≥ total = 0`. -/
theorem query_offset_past_end_instance :
    ((foundList toyOracle demoStore "zzz" "").length ≤ SearchOptions.default.offset)
  ∧ (query toyOracle demoStore "zzz" "" SearchOptions.default =
      Except.ok (queryMatches toyOracle demoStore "zzz" "" SearchOptions.default)
    ∧ (queryMatches toyOracle demoStore "zzz" "" SearchOptions.default).invoices = []
    ∧ (queryMatches toyOracle demoStore "zzz" "" SearchOptions.default).more = false
    ∧ (queryMatches toyOracle demoStore "zzz" "" SearchOptions.default).offset =
        SearchOptions.default.offset
    ∧ (queryMatches toyOracle demoStore "zzz" "" SearchOptions.default).limit =
        SearchOptions.default.limit
    ∧ (queryMatches toyOracle demoStore "zzz" "" SearchOptions.default).total =
        (foundList toyOracle demoStore "zzz" "").length
    ∧ (queryMatches toyOracle demoStore "zzz" "" SearchOptions.default).strict = true
    ∧ (queryMatches toyOracle demoStore "zzz" "" SearchOptions.default).yanked = false) :=
  ⟨by decide,
    query_offset_past_end toyOracle demoStore "zzz" "" SearchOptions.default (by decide)⟩

/-- C6 counterexample: with options requesting yanked records
(`yanked = true`), the result carries `yanked = false` — the strict
engine overwrites the echoed flag, so the `yanked` field is not echoed
as the claim states. -/
theorem query_does_not_echo_yanked :
    yankedOpts.yanked = true
  ∧ (queryMatches toyOracle demoStore "a" "" yankedOpts).yanked = false := by
  decide

/-- C6 (amended): the result echoes the offset and limit of the options,
but its `yanked` field is always `false` (the strict engine overwrites
the echoed value) and its `strict` field is always `true`. -/
theorem query_echoes_offset_limit (S : SemverOracle Rq Vr) (idx : Store) (t f : String)
    (o : SearchOptions) :
    (queryMatches S idx t f o).offset = o.offset
  ∧ (queryMatches S idx t f o).limit = o.limit
  ∧ (queryMatches S idx t f o).yanked = false
  ∧ (queryMatches S idx t f o).strict = true := by
  unfold queryMatches
  split <;> simp [Matches.new]

/-- C7: on a sorted store, indexing preserves the sorted-key invariant
(hence at most one live entry per name); indexing two invoices with the
same name collapses to indexing only the second (last write wins); the
entries under that name afterwards are exactly the second invoice; and
a query for that name matches only the second invoice gated by its own
version, never the first. -/
theorem index_last_write_wins (s : Store) (r₁ r₂ : Invoice)
    (hs : SortedKeys s) (hname : r₁.name = r₂.name) :
    (∀ r : Invoice, SortedKeys (StrictEngine.index s r))
  ∧ StrictEngine.index (StrictEngine.index s r₁) r₂ = StrictEngine.index s r₂
  ∧ (StrictEngine.index (StrictEngine.index s r₁) r₂).filter
      (fun p => p.1 == r₂.name) = [(r₂.name, r₂)]
  ∧ ∀ (Rq₁ Vr₁ : Type) (S : SemverOracle Rq₁ Vr₁) (f : String),
      foundList S (StrictEngine.index (StrictEngine.index s r₁) r₂) r₂.name f =
        if version_compare S r₂.version f then [r₂] else [] := by
  have hcollapse : StrictEngine.index (StrictEngine.index s r₁) r₂ =
      StrictEngine.index s r₂ := by
    unfold StrictEngine.index
    rw [hname]
    exact insertSorted_insertSorted_same _ _ _ _
  refine ⟨fun r => sortedKeys_insertSorted _ _ hs, hcollapse, ?_, ?_⟩
  · rw [hcollapse]
    unfold StrictEngine.index
    exact filter_key_insertSorted hs _ _
  · intro Rq₁ Vr₁ S f
    rw [hcollapse]
    unfold StrictEngine.index
    exact foundList_insertSorted S hs _ _ f

/-- C7 witness: last-write-wins applied to the demo store and two
invoices that share the name "a" with different versions. -/
theorem index_last_write_wins_instance :
    (SortedKeys demoStore ∧ invA.name = invA2.name)
  ∧ ((∀ r : Invoice, SortedKeys (StrictEngine.index demoStore r))
    ∧ StrictEngine.index (StrictEngine.index demoStore invA) invA2 =
        StrictEngine.index demoStore invA2
    ∧ (StrictEngine.index (StrictEngine.index demoStore invA) invA2).filter
        (fun p => p.1 == invA2.name) = [(invA2.name, invA2)]
    ∧ ∀ (Rq₁ Vr₁ : Type) (S : SemverOracle Rq₁ Vr₁) (f : String),
        foundList S (StrictEngine.index (StrictEngine.index demoStore invA) invA2)
            invA2.name f =
          if version_compare S invA2.version f then [invA2] else []) :=
  ⟨⟨by decide, by decide⟩,
    index_last_write_wins demoStore invA invA2 (by decide) (by decide)⟩

/-- C8: indexing the same invoice twice yields exactly the store of
indexing it once, so the store size and the result of every subsequent
query are unchanged relative to the single-index store. -/
theorem index_idempotent (s : Store) (r : Invoice) :
    StrictEngine.index (StrictEngine.index s r) r = StrictEngine.index s r
  ∧ (StrictEngine.index (StrictEngine.index s r) r).length =
      (StrictEngine.index s r).length
  ∧ ∀ (Rq₁ Vr₁ : Type) (S : SemverOracle Rq₁ Vr₁) (t f : String) (o : SearchOptions),
      queryMatches S (StrictEngine.index (StrictEngine.index s r) r) t f o =
        queryMatches S (StrictEngine.index s r) t f o := by
  have h : StrictEngine.index (StrictEngine.index s r) r = StrictEngine.index s r := by
    unfold StrictEngine.index
    exact insertSorted_insertSorted_same _ _ _ _
  exact ⟨h, by rw [h], fun Rq₁ Vr₁ S t f o => by rw [h]⟩

/-- C9: a non-empty filter that fails to parse as a version requirement
never makes query fail: version_compare rejects every version, so the
query succeeds with `total = 0`, an empty invoice list and
`more = false` — indistinguishable from a successful empty result. -/
theorem query_malformed_filter_empty_success (S : SemverOracle Rq Vr) (idx : Store)
    (t f : String) (o : SearchOptions) (hne : f ≠ "") (hp : S.parseReq f = none) :
    query S idx t f o = Except.ok (queryMatches S idx t f o)
  ∧ (queryMatches S idx t f o).total = 0
  ∧ (queryMatches S idx t f o).invoices = []
  ∧ (queryMatches S idx t f o).more = false := by
  have hvc : ∀ v : String, version_compare S v f = false := by
    intro v
    unfold version_compare
    rw [if_neg hne, hp]
  have hfl : foundList S idx t f = [] := by
    unfold foundList
    rw [filter_eq_nil_of_none _ _ (fun p _ => by rw [hvc p.2.version, Bool.and_false])]
    rfl
  refine ⟨rfl, ?_⟩
  unfold queryMatches
  rw [hfl]
  simp [Matches.new]

/-- C9 witness: the malformed-filter theorem applied to the toy oracle,
whose requirement parser rejects the string "bad". -/
theorem query_malformed_filter_empty_success_instance :
    (("bad" : String) ≠ "" ∧ toyOracle.parseReq "bad" = none)
  ∧ (query toyOracle demoStore "a" "bad" SearchOptions.default =
      Except.ok (queryMatches toyOracle demoStore "a" "bad" SearchOptions.default)
    ∧ (queryMatches toyOracle demoStore "a" "bad" SearchOptions.default).total = 0
    ∧ (queryMatches toyOracle demoStore "a" "bad" SearchOptions.default).invoices = []
    ∧ (queryMatches toyOracle demoStore "a" "bad" SearchOptions.default).more = false) :=
  ⟨⟨by decide, by decide⟩,
    query_malformed_filter_empty_success toyOracle demoStore "a" "bad"
      SearchOptions.default (by decide) (by decide)⟩

/-- C10: the pagination arithmetic does wrap around, refuting the claim:
at `offset = 0`, `limit = 0` with one matching record, the `u64`
computation `offset + limit - 1` underflows to `2 ^ 64 - 1` (a debug
build panics here), after which the clamp returns every match — the
result holds more than `limit` invoices, contradicting the claimed
absence of wraparound for every `limit` in 0–255 and the documented
bound `invoices.len() <= limit`. -/
theorem query_zero_limit_underflow :
    last_index_raw zeroLimitOpts = U64 - 1
  ∧ ¬ ((queryMatches toyOracle demoStoreC "c" "" zeroLimitOpts).invoices.length ≤
      zeroLimitOpts.limit) := by
  decide

end BindleSearch
